import Mathlib

/-!
Verification of the qobuz-dl-go download engine and FLAC metadata codec.

Go strings and byte slices are modelled as `List Nat` (byte values); Go's
`uint32` length prefixes are modelled as `Nat` written modulo 2^32 by `le32`.
Definitions are shallow embeddings of the functions in
`internal/engine/flac_metadata.go`, `internal/engine/tagger.go` and
`internal/engine/engine.go`.
-/

set_option linter.unusedVariables false

namespace QobuzDL

/-- Byte list of an ASCII Lean string (all literals used here are ASCII,
so codepoints coincide with UTF-8 bytes). -/
def strBytes (s : String) : List Nat := s.data.map Char.toNat

/-- Little-endian 32-bit encoding of `n`, as written by Go's
`binary.Write(buf, binary.LittleEndian, uint32(n))` — the four bytes of
`n mod 2^32`. -/
def le32 (n : Nat) : List Nat :=
  [n % 256, n / 256 % 256, n / 65536 % 256, n / 16777216 % 256]

/-- `binary.Read(buf, binary.LittleEndian, &x)` for a `uint32`: consumes four
bytes (erroring when fewer remain) and returns the little-endian value. -/
def readU32 : List Nat → Option (Nat × List Nat)
  | b0 :: b1 :: b2 :: b3 :: rest =>
      some (b0 + 256 * b1 + 65536 * b2 + 16777216 * b3, rest)
  | _ => none

/-- `io.ReadFull(buf, make([]byte, n))`: consumes exactly `n` bytes, erroring
when fewer remain. -/
def readBytes (n : Nat) (l : List Nat) : Option (List Nat × List Nat) :=
  if n ≤ l.length then some (l.take n, l.drop n) else none

/-- `VorbisComment` from flac_metadata.go: a vendor string and an ordered list
of comment entries. -/
structure VorbisComment where
  Vendor : List Nat
  Comments : List (List Nat)
deriving DecidableEq, Repr

/-- The fixed vendor string used by `NewVorbisComment`. -/
def defaultVendor : List Nat := strBytes "reference libFLAC 1.3.4 20220220"

/-- `NewVorbisComment()`: fresh comment block with the fixed default vendor. -/
def NewVorbisComment : VorbisComment :=
  { Vendor := defaultVendor, Comments := [] }

/-- The comment-list loop of `ParseVorbisComment`: reads `n` length-prefixed
entries. -/
def readComments : Nat → List Nat → Option (List (List Nat) × List Nat)
  | 0, l => some ([], l)
  | n + 1, l =>
    match readU32 l with
    | none => none
    | some (len, r1) =>
      match readBytes len r1 with
      | none => none
      | some (c, r2) =>
        match readComments n r2 with
        | none => none
        | some (cs, r3) => some (c :: cs, r3)

/-- `ParseVorbisComment(data)` from flac_metadata.go: vendor length (LE u32),
vendor bytes, entry count (LE u32), then count many length-prefixed entries.
Any short read is an error (`none`); trailing bytes are ignored. -/
def ParseVorbisComment (data : List Nat) : Option VorbisComment :=
  match readU32 data with
  | none => none
  | some (vendorLen, r1) =>
    match readBytes vendorLen r1 with
    | none => none
    | some (vendor, r2) =>
      match readU32 r2 with
      | none => none
      | some (commentListLen, r3) =>
        match readComments commentListLen r3 with
        | none => none
        | some (comments, _) =>
          some { Vendor := vendor, Comments := comments }

/-- `VorbisComment.Marshal()` from flac_metadata.go: vendor length, vendor,
entry count, then each entry's byte length and bytes, lengths little-endian
`uint32` (hence mod 2^32). -/
def VorbisComment.Marshal (vc : VorbisComment) : List Nat :=
  le32 vc.Vendor.length ++ vc.Vendor
    ++ le32 vc.Comments.length
    ++ (vc.Comments.map (fun c => le32 c.length ++ c)).flatten

/-- A comment list is over-declared when the entry count promises an entry for
which no length header remains, or some entry's declared length exceeds the
remaining buffer. -/
def commentsOverrun : Nat → List Nat → Bool
  | 0, _ => false
  | n + 1, l =>
    match readU32 l with
    | none => true
    | some (len, r1) =>
      if len ≤ r1.length then commentsOverrun n (r1.drop len)
      else true

/-- A comment block input is over-declared when the vendor length exceeds the
remaining buffer, or (vendor and entry count read fine) the declared entries
over-run the remaining buffer. -/
def hasOverrun (data : List Nat) : Bool :=
  match readU32 data with
  | none => false
  | some (vendorLen, r1) =>
    if vendorLen ≤ r1.length then
      match readU32 (r1.drop vendorLen) with
      | none => false
      | some (commentListLen, r3) => commentsOverrun commentListLen r3
    else true

/-- ASCII uppercase of one byte: the effect of Go's `strings.ToUpper` on the
ASCII tag keys passed to `addTag`. -/
def asciiUpper (b : Nat) : Nat := if 97 ≤ b ∧ b ≤ 122 then b - 32 else b

/-- ASCII lowercase of one byte: the effect of Go's `strings.ToLower` on the
ASCII extension bytes compared by `WriteTags`. -/
def asciiLower (b : Nat) : Nat := if 65 ≤ b ∧ b ≤ 90 then b + 32 else b

/-- Decimal digit bytes, least significant first, with explicit fuel (the
fuel `n` always suffices since a number exceeds its digit count). -/
def digitsRevGo : Nat → Nat → List Nat
  | _, 0 => []
  | 0, _ + 1 => []
  | fuel + 1, n + 1 => ((n + 1) % 10 + 48) :: digitsRevGo fuel ((n + 1) / 10)

/-- Decimal digit bytes of a positive `n`, least significant first. -/
def digitsRev (n : Nat) : List Nat := digitsRevGo n n

/-- Digit bytes written by Go's `fmt.Sprintf("%d", n)` for a non-negative
number. -/
def decimalBytes (n : Nat) : List Nat :=
  if n = 0 then [48] else (digitsRev n).reverse

/-- `VorbisComment.Add` from flac_metadata.go: no-op for an empty value, else
appends one `KEY=VALUE` entry at the end (61 is the byte of `=`). -/
def VorbisComment.Add (vc : VorbisComment) (key value : List Nat) : VorbisComment :=
  if value = [] then vc
  else { vc with Comments := vc.Comments ++ [key ++ [61] ++ value] }

/-- `addTag` from tagger.go: skips empty values, otherwise adds the
uppercased key. -/
def addTag (cmts : VorbisComment) (key value : List Nat) : VorbisComment :=
  if value = [] then cmts else cmts.Add (key.map asciiUpper) value

/-- `api.TrackMetadata`, restricted to the fields the tagging and planning
code reads. Track and disc numbers are the non-negative values produced by
the API. -/
structure TrackMetadata where
  Title : List Nat
  Version : List Nat
  PerformerName : List Nat
  TrackNumber : Nat
  MediaNumber : Nat
deriving DecidableEq, Repr

/-- `api.AlbumMetadata`, restricted to the fields the tagging code reads;
`Genre` is the optional pointer field, carrying its `Name`. -/
structure AlbumMetadata where
  Title : List Nat
  ArtistName : List Nat
  Genre : Option (List Nat)
  ReleaseDateOrg : List Nat
  ReleaseDateStream : List Nat
deriving DecidableEq, Repr

/-- The tag-setting block of `Tagger.WriteFlacTags` (tagger.go): the chain of
`addTag` calls, the conditional GENRE tag, and the DATE fallback. -/
def setTags (cmts : VorbisComment) (track : TrackMetadata)
    (album : AlbumMetadata) : VorbisComment :=
  let c1 := addTag cmts (strBytes "TITLE") track.Title
  let c2 := addTag c1 (strBytes "VERSION") track.Version
  let c3 := addTag c2 (strBytes "ARTIST") track.PerformerName
  let c4 := addTag c3 (strBytes "ALBUM") album.Title
  let c5 := addTag c4 (strBytes "ALBUMARTIST") album.ArtistName
  let c6 := addTag c5 (strBytes "TRACKNUMBER") (decimalBytes track.TrackNumber)
  let c7 := addTag c6 (strBytes "DISCNUMBER") (decimalBytes track.MediaNumber)
  let c8 := match album.Genre with
    | some g => addTag c7 (strBytes "GENRE") g
    | none => c7
  if album.ReleaseDateOrg ≠ [] then
    addTag c8 (strBytes "DATE") album.ReleaseDateOrg
  else if album.ReleaseDateStream ≠ [] then
    addTag c8 (strBytes "DATE") album.ReleaseDateStream
  else c8

/-- The entries `addTag key value` contributes: nothing when the value is
empty, else the single `KEY=VALUE` entry. -/
def entryFor (key value : List Nat) : List (List Nat) :=
  if value = [] then [] else [key ++ [61] ++ value]

/-- The exact list of entries the tag-setting block appends, in order. -/
def tagEntries (track : TrackMetadata) (album : AlbumMetadata) :
    List (List Nat) :=
  entryFor (strBytes "TITLE") track.Title
    ++ entryFor (strBytes "VERSION") track.Version
    ++ entryFor (strBytes "ARTIST") track.PerformerName
    ++ entryFor (strBytes "ALBUM") album.Title
    ++ entryFor (strBytes "ALBUMARTIST") album.ArtistName
    ++ entryFor (strBytes "TRACKNUMBER") (decimalBytes track.TrackNumber)
    ++ entryFor (strBytes "DISCNUMBER") (decimalBytes track.MediaNumber)
    ++ (match album.Genre with
        | some g => entryFor (strBytes "GENRE") g
        | none => [])
    ++ (if album.ReleaseDateOrg ≠ [] then
          entryFor (strBytes "DATE") album.ReleaseDateOrg
        else entryFor (strBytes "DATE") album.ReleaseDateStream)

/-- `flac.MetaDataBlock` from go-flac: a block type tag and raw payload.
The Go field `Type` is `BlockType` here (`Type` is reserved in Lean). -/
structure MetaDataBlock where
  BlockType : Nat
  Data : List Nat
deriving DecidableEq, Repr

/-- `flac.VorbisComment` block type tag (4). -/
def vorbisCommentBlockType : Nat := 4

/-- `flac.Picture` block type tag (6). -/
def pictureBlockType : Nat := 6

/-- `Picture` from flac_metadata.go, fields in marshal order. -/
structure Picture where
  PictureType : Nat
  MIME : List Nat
  Description : List Nat
  Width : Nat
  Height : Nat
  Depth : Nat
  ColorCount : Nat
  ImageData : List Nat
deriving DecidableEq, Repr

/-- Big-endian 32-bit encoding (the four bytes of `n mod 2^32`). -/
def be32 (n : Nat) : List Nat :=
  [n / 16777216 % 256, n / 65536 % 256, n / 256 % 256, n % 256]

/-- `Picture.Marshal` from flac_metadata.go: big-endian fields, fixed order. -/
def Picture.Marshal (p : Picture) : List Nat :=
  be32 p.PictureType ++ be32 p.MIME.length ++ p.MIME
    ++ be32 p.Description.length ++ p.Description
    ++ be32 p.Width ++ be32 p.Height ++ be32 p.Depth ++ be32 p.ColorCount
    ++ be32 p.ImageData.length ++ p.ImageData

/-- `NewPicture()` followed by the cover-art field assignments in
`WriteFlacTags` (front cover, JPEG, "Cover" description). -/
def coverPicture (coverData : List Nat) : Picture :=
  { PictureType := 3, MIME := strBytes "image/jpeg",
    Description := strBytes "Cover", Width := 0, Height := 0, Depth := 0,
    ColorCount := 0, ImageData := coverData }

/-- The picture blocks appended by `WriteFlacTags`: one new block when cover
bytes are supplied, none otherwise. -/
def picPart (coverData : List Nat) : List MetaDataBlock :=
  if coverData = [] then []
  else [{ BlockType := pictureBlockType, Data := (coverPicture coverData).Marshal }]

/-- The metadata-chain transformation of `Tagger.WriteFlacTags` (tagger.go),
applied to the block chain `meta` produced by `flac.ParseFile`: scan for the
first Vorbis-comment block; parse and update it in place, or append a fresh
`NewVorbisComment`; then append a picture block when cover bytes are
supplied. `none` models the error return when the existing comment block
fails to parse. -/
def writeFlacMeta (meta : List MetaDataBlock) (track : TrackMetadata)
    (album : AlbumMetadata) (coverData : List Nat) :
    Option (List MetaDataBlock) :=
  match List.findIdx? (fun b => b.BlockType == vorbisCommentBlockType) meta with
  | some i =>
    match meta[i]? with
    | none => none
    | some b =>
      match ParseVorbisComment b.Data with
      | none => none
      | some cmts =>
        some (meta.set i { b with Data := (setTags cmts track album).Marshal }
          ++ picPart coverData)
  | none =>
    some (meta
      ++ [MetaDataBlock.mk vorbisCommentBlockType
            (setTags NewVorbisComment track album).Marshal]
      ++ picPart coverData)

/-- A byte matched by the `illegalCharsRegex` class of engine.go:
`<`, `>`, `:`, `"`, `/`, `\`, `|`, `?`, `*` or a control byte 0x00–0x1f. -/
def isIllegalByte (b : Nat) : Bool :=
  b < 32 || b == 60 || b == 62 || b == 58 || b == 34 || b == 47 || b == 92
    || b == 124 || b == 63 || b == 42

/-- An ASCII whitespace byte as trimmed by `strings.TrimSpace` (the code
points below 0x80 satisfying `unicode.IsSpace`). -/
def isAsciiSpaceByte (b : Nat) : Bool :=
  b == 32 || b == 9 || b == 10 || b == 11 || b == 12 || b == 13

/-- `illegalCharsRegex.ReplaceAllString(name, "_")`: every illegal byte
becomes `_` (95). The class characters are all ASCII, so the byte-level
replacement coincides with Go's rune-level one on UTF-8 input. -/
def replaceIllegal (name : List Nat) : List Nat :=
  name.map (fun b => if isIllegalByte b then 95 else b)

/-- `strings.TrimSpace`, byte-level: drops leading and trailing ASCII
whitespace. Multi-byte Unicode whitespace is not modelled (every control
whitespace byte has already been replaced by `_` when this runs). -/
def trimSpaceBytes (name : List Nat) : List Nat :=
  ((name.dropWhile isAsciiSpaceByte).reverse.dropWhile isAsciiSpaceByte).reverse

/-- `sanitizeFilename` from engine.go: replace illegal bytes, trim, then cap
at 200 bytes (`name[:200]` slices bytes in Go). -/
def sanitizeFilename (name : List Nat) : List Nat :=
  let r := replaceIllegal name
  let t := trimSpaceBytes r
  if t.length > 200 then t.take 200 else t

/-- `TrackStatus` from engine.go. -/
inductive TrackStatus where
  | StatusQueued
  | StatusDownloading
  | StatusComplete
  | StatusFailed
deriving DecidableEq, Repr

/-- Complete and Failed are the terminal statuses. -/
def isTerminal : TrackStatus → Bool
  | .StatusComplete => true
  | .StatusFailed => true
  | _ => false

/-- The transitions allowed by the per-track state machine:
Queued → Downloading → {Complete | Failed}. -/
def allowedStep : TrackStatus → TrackStatus → Bool
  | .StatusQueued, .StatusDownloading => true
  | .StatusDownloading, .StatusComplete => true
  | .StatusDownloading, .StatusFailed => true
  | _, _ => false

/-- Outcome of the three fallible steps of one worker task: the signed-URL
fetch, the streamed download, and the tagging call. -/
structure TaskOutcome where
  urlOk : Bool
  dlOk : Bool
  tagOk : Bool
deriving DecidableEq, Repr

/-- What one worker-task execution leaves behind: the sequence of status
values assigned to the task's `trackState` (starting from its initial
Queued), and whether a warning was printed. -/
structure WorkerTaskRun where
  statusTrace : List TrackStatus
  warned : Bool
deriving DecidableEq, Repr

/-- The worker goroutine body of `DownloadAlbum` (engine.go) for one task:
set Downloading; on URL failure set Failed; on download failure set Failed;
otherwise call the tagger with `_ =` (its error is discarded, printing
nothing) and set Complete. -/
def runWorkerTask (o : TaskOutcome) : WorkerTaskRun :=
  if !o.urlOk then
    { statusTrace := [.StatusQueued, .StatusDownloading, .StatusFailed],
      warned := false }
  else if !o.dlOk then
    { statusTrace := [.StatusQueued, .StatusDownloading, .StatusFailed],
      warned := false }
  else
    { statusTrace := [.StatusQueued, .StatusDownloading, .StatusComplete],
      warned := false }

/-- Result of `Engine.DownloadTrack`: an error return, or a nil return having
possibly printed the tagging warning. -/
inductive TrackRunResult where
  | errorReturn
  | okWith (warned : Bool)
deriving DecidableEq, Repr

/-- `Engine.DownloadTrack` (engine.go) control flow: metadata fetch, URL
fetch and download failures return errors; after a successful download a
tagging failure prints "Warning: Failed to tag file" and the function still
returns nil. -/
def downloadTrackRun (metaOk urlOk dlOk tagOk : Bool) : TrackRunResult :=
  if !metaOk then .errorReturn
  else if !urlOk then .errorReturn
  else if !dlOk then .errorReturn
  else .okWith (!tagOk)

/-- The percent computation of `downloadFileWithProgress` (engine.go):
`int(float64(downloaded)/float64(total)*100)` capped at 100, modelled with
exact integer division — both forms are monotone in `downloaded` and capped
at 100, which is all the claims use. -/
def reportPercent (downloaded total : Nat) : Nat :=
  min (downloaded * 100 / total) 100

/-- One observable event on a track's state: the initial
Downloading/progress-0 assignment, a progress callback, or the single locked
terminal assignment (which for Complete also writes progress 100). -/
inductive TrackEvent where
  | startDownloading
  | progressUpdate (p : Nat)
  | terminalStatus (s : TrackStatus)
deriving DecidableEq, Repr

/-- The progress callbacks fired while streaming: one per transport callback,
and only when the response's content length is known positive (the guard in
`downloadFileWithProgress`). -/
def downloadEvents (total : Nat) (byteCounts : List Nat) : List TrackEvent :=
  if 0 < total then
    byteCounts.map (fun d => .progressUpdate (reportPercent d total))
  else []

/-- One track's event trace in the worker: Downloading with progress 0, the
streamed progress callbacks, then exactly one terminal status. -/
def trackRunTrace (total : Nat) (byteCounts : List Nat) (ok : Bool) :
    List TrackEvent :=
  [.startDownloading] ++ downloadEvents total byteCounts
    ++ [.terminalStatus (if ok then .StatusComplete else .StatusFailed)]

/-- The percentages a trace delivers, in order. -/
def progressValues (tr : List TrackEvent) : List Nat :=
  tr.filterMap (fun e =>
    match e with
    | .progressUpdate p => some p
    | _ => none)

/-- Whether an event is a terminal status assignment. -/
def isTerminalEvent : TrackEvent → Bool
  | .terminalStatus _ => true
  | _ => false

/-- `trackTask` from engine.go: immutable snapshot of one planned track. -/
structure trackTask where
  Track : TrackMetadata
  TrackPath : List Nat
  FileName : List Nat
  Index : Nat
deriving DecidableEq, Repr

/-- `%02d`: decimal digits left-padded with `0` to width two. -/
def pad2 (n : Nat) : List Nat :=
  if (decimalBytes n).length < 2 then 48 :: decimalBytes n else decimalBytes n

/-- The `"NN. Title"`.flac filename built in the `DownloadAlbum` task loop;
the requested quality is in scope in the source but unused by the name. -/
def albumTrackFileName (quality : Nat) (track : TrackMetadata) : List Nat :=
  sanitizeFilename (pad2 track.TrackNumber ++ strBytes ". " ++ track.Title)
    ++ strBytes ".flac"

/-- `filepath.Join` of a directory and a file name (separator byte `/`;
Go uses the OS separator). -/
def joinPath (dir name : List Nat) : List Nat := dir ++ [47] ++ name

/-- The task-queue build loop of `DownloadAlbum` (engine.go): iterate tracks
in album order from index `i`; a track whose destination path exists
(`os.Stat` succeeds, modelled by `existsAt`) is counted skipped and omitted;
the rest become tasks with `Index = i+1` in the original order. -/
def buildTasks (quality : Nat) (albumDir : List Nat)
    (existsAt : List Nat → Bool) :
    List TrackMetadata → Nat → List trackTask × Nat
  | [], _ => ([], 0)
  | t :: ts, i =>
    let fileName := albumTrackFileName quality t
    let path := joinPath albumDir fileName
    let (rest, sk) := buildTasks quality albumDir existsAt ts (i + 1)
    if existsAt path then (rest, sk + 1)
    else ({ Track := t, TrackPath := path, FileName := fileName,
            Index := i + 1 } :: rest, sk)

/-- The full planning pass over the album's track list. -/
def planTasks (quality : Nat) (albumDir : List Nat)
    (tracks : List TrackMetadata) (existsAt : List Nat → Bool) :
    List trackTask × Nat :=
  buildTasks quality albumDir existsAt tracks 0

/-- The destination path the planner computes for one track. -/
def plannedPath (quality : Nat) (albumDir : List Nat)
    (track : TrackMetadata) : List Nat :=
  joinPath albumDir (albumTrackFileName quality track)

/-- How `DownloadAlbum` proceeds after the task build: an empty task list
returns nil ("All tracks already downloaded!") before any worker or transfer
starts; otherwise the worker pool processes each task once. -/
inductive AlbumRunOutcome where
  | earlySuccess (skipped : Nat)
  | ranTasks (taskCount : Nat)
deriving DecidableEq, Repr

/-- The branch taken by `DownloadAlbum` after planning. -/
def downloadAlbumOutcome (quality : Nat) (albumDir : List Nat)
    (tracks : List TrackMetadata) (existsAt : List Nat → Bool) :
    AlbumRunOutcome :=
  let (tasks, sk) := planTasks quality albumDir tracks existsAt
  if tasks = [] then .earlySuccess sk else .ranTasks tasks.length

/-- Upper bound on track transfers the outcome performs: none on the early
return; at most one download attempt per task otherwise. -/
def maxTransfersOf : AlbumRunOutcome → Nat
  | .earlySuccess _ => 0
  | .ranTasks n => n

/-- The `"Artist - Title"`.flac name built by `Engine.DownloadTrack`; the
requested quality is in scope in the source but unused by the name. -/
def downloadTrackFileName (quality : Nat) (performerName title : List Nat) :
    List Nat :=
  sanitizeFilename (performerName ++ strBytes " - " ++ title)
    ++ strBytes ".flac"

/-- The two tagging routes of `Tagger.WriteTags`. -/
inductive TagFormat where
  | mp3Tags
  | flacTags
deriving DecidableEq, Repr

/-- The extension dispatch of `Tagger.WriteTags` (tagger.go): lowercase the
path; a `.mp3` suffix routes to the ID3 writer; a `.flac` suffix and every
other extension route to the FLAC path. -/
def writeTagsFormat (filePath : List Nat) : TagFormat :=
  let lowerPath := filePath.map asciiLower
  if (strBytes ".mp3").isSuffixOf lowerPath then .mp3Tags
  else if (strBytes ".flac").isSuffixOf lowerPath then .flacTags
  else .flacTags

/-! ## Theorems -/

/-- Reading back a just-written little-endian u32 below 2^32 recovers it. -/
theorem readU32_le32 (n : Nat) (rest : List Nat) (h : n < 4294967296) :
    readU32 (le32 n ++ rest) = some (n, rest) := by
  have key : n % 256 + 256 * (n / 256 % 256) + 65536 * (n / 65536 % 256)
      + 16777216 * (n / 16777216 % 256) = n := by omega
  simp only [le32, List.cons_append, List.nil_append, readU32, key]

/-- Reading back exactly the bytes just written recovers them. -/
theorem readBytes_append (l rest : List Nat) :
    readBytes l.length (l ++ rest) = some (l, rest) := by
  simp [readBytes]

/-- The comment-list loop inverts the comment-list serialization. -/
theorem readComments_marshal (cs : List (List Nat)) (rest : List Nat)
    (h : ∀ c ∈ cs, c.length < 4294967296) :
    readComments cs.length ((cs.map (fun c => le32 c.length ++ c)).flatten ++ rest) =
      some (cs, rest) := by
  induction cs with
  | nil => simp [readComments]
  | cons c cs ih =>
    have hc : c.length < 4294967296 := h c (by simp)
    have hcs : ∀ x ∈ cs, x.length < 4294967296 := fun x hx => h x (by simp [hx])
    simp only [List.map_cons, List.flatten_cons, List.length_cons, readComments,
      List.append_assoc, readU32_le32 _ _ hc, readBytes_append, ih hcs]

/-- Variant of `readComments_marshal` with nothing after the serialized list. -/
theorem readComments_marshal' (cs : List (List Nat))
    (h : ∀ c ∈ cs, c.length < 4294967296) :
    readComments cs.length (cs.map (fun c => le32 c.length ++ c)).flatten =
      some (cs, []) := by
  have := readComments_marshal cs [] h
  simpa using this

/-- C1. Round-trip of the comment codec: parsing the bytes produced by
`Marshal` yields the original value back, for every value whose vendor length,
entry count and entry lengths fit in a `uint32` — including duplicate-key
entries and the empty entry list, every length prefix being a little-endian
32-bit byte length. -/
theorem parse_marshal_roundtrip (vc : VorbisComment)
    (hv : vc.Vendor.length < 4294967296)
    (hn : vc.Comments.length < 4294967296)
    (hc : ∀ c ∈ vc.Comments, c.length < 4294967296) :
    ParseVorbisComment vc.Marshal = some vc := by
  unfold VorbisComment.Marshal
  simp only [ParseVorbisComment, List.append_assoc, readU32_le32 _ _ hv,
    readBytes_append, readU32_le32 _ _ hn, readComments_marshal' _ hc]

/-- Witness for C1 at a concrete value with duplicate keys. -/
theorem parse_marshal_roundtrip_witness :
    ParseVorbisComment
      (VorbisComment.Marshal
        { Vendor := strBytes "v", Comments := [strBytes "A=1", strBytes "A=2"] }) =
      some { Vendor := strBytes "v", Comments := [strBytes "A=1", strBytes "A=2"] } :=
  parse_marshal_roundtrip _ (by decide) (by decide) (by decide)

/-- An over-declared comment list makes the entry loop fail. -/
theorem readComments_overrun (n : Nat) (l : List Nat)
    (h : commentsOverrun n l = true) : readComments n l = none := by
  induction n generalizing l with
  | zero => simp [commentsOverrun] at h
  | succ n ih =>
    unfold commentsOverrun at h
    unfold readComments
    cases hr : readU32 l with
    | none => rfl
    | some p =>
      obtain ⟨len, r1⟩ := p
      rw [hr] at h
      simp only at h
      by_cases hle : len ≤ r1.length
      · rw [if_pos hle] at h
        simp only [readBytes, if_pos hle, ih _ h]
      · simp [readBytes, hle]

/-- C8. Parse failure on over-declared lengths: whenever some declared 32-bit
length field (vendor length, an entry promised by the entry count, or an
individual entry length) requires more bytes than remain in the buffer,
`ParseVorbisComment` errors and returns no value. -/
theorem parse_overrun_fails (data : List Nat) (h : hasOverrun data = true) :
    ParseVorbisComment data = none := by
  unfold hasOverrun at h
  unfold ParseVorbisComment
  cases hr : readU32 data with
  | none => rfl
  | some p =>
    obtain ⟨vendorLen, r1⟩ := p
    rw [hr] at h
    simp only at h
    by_cases hle : vendorLen ≤ r1.length
    · rw [if_pos hle] at h
      simp only [readBytes, if_pos hle]
      cases hr2 : readU32 (r1.drop vendorLen) with
      | none => rfl
      | some q =>
        obtain ⟨commentListLen, r3⟩ := q
        rw [hr2] at h
        simp only at h
        simp only [readComments_overrun _ _ h]
    · simp [readBytes, hle]

/-- Witness for C8: four bytes declaring a 10-byte vendor with nothing left. -/
theorem parse_overrun_fails_witness :
    hasOverrun [10, 0, 0, 0] = true ∧ ParseVorbisComment [10, 0, 0, 0] = none :=
  ⟨by decide, parse_overrun_fails [10, 0, 0, 0] (by decide)⟩

/-- Replacement never leaves an illegal byte. -/
theorem replaceIllegal_clean (name : List Nat) :
    ∀ b ∈ replaceIllegal name, isIllegalByte b = false := by
  intro b hb
  simp only [replaceIllegal, List.mem_map] at hb
  obtain ⟨a, _, ha⟩ := hb
  by_cases h : isIllegalByte a
  · rw [if_pos h] at ha
    subst ha
    decide
  · rw [if_neg h] at ha
    subst ha
    simpa using h

/-- Replacement is positional: byte `i` of the output is byte `i` of the
input, with illegal bytes turned into `_` (95). -/
theorem replaceIllegal_at (name : List Nat) (i : Nat) (b : Nat)
    (h : name[i]? = some b) :
    (replaceIllegal name)[i]? = some (if isIllegalByte b then 95 else b) := by
  simp only [replaceIllegal, List.getElem?_map, h, Option.map_some']

/-- Everything surviving the trim was already present. -/
theorem trimSpaceBytes_mem (name : List Nat) :
    ∀ b ∈ trimSpaceBytes name, b ∈ name := by
  intro b hb
  simp only [trimSpaceBytes, List.mem_reverse] at hb
  have h1 := (List.dropWhile_sublist (l := (name.dropWhile isAsciiSpaceByte).reverse)
    (p := isAsciiSpaceByte)).mem hb
  rw [List.mem_reverse] at h1
  exact (List.dropWhile_sublist (l := name) (p := isAsciiSpaceByte)).mem h1

/-- The head of a `dropWhile` never satisfies the predicate. -/
theorem head?_dropWhile_false {α : Type} (p : α → Bool) (l : List α) :
    ∀ b, (l.dropWhile p).head? = some b → p b = false := by
  induction l with
  | nil => intro b h; simp [List.dropWhile] at h
  | cons a l ih =>
    intro b h
    rw [List.dropWhile_cons] at h
    by_cases hp : p a
    · rw [if_pos hp] at h
      exact ih b h
    · rw [if_neg hp] at h
      simp only [List.head?_cons, Option.some.injEq] at h
      subst h
      simpa using hp

/-- A non-empty suffix carries the last element of the whole list. -/
theorem getLast?_of_suffix {α : Type} {s l : List α} (h : s <:+ l)
    (hne : s ≠ []) : l.getLast? = s.getLast? := by
  obtain ⟨t, rfl⟩ := h
  cases hg : s.getLast? with
  | none => exact absurd (List.getLast?_eq_none_iff.mp hg) hne
  | some a => rw [List.getLast?_append, hg, Option.or_some]

/-- The trimmed list starts with a non-space byte. -/
theorem trimSpaceBytes_head (name : List Nat) :
    ∀ b, (trimSpaceBytes name).head? = some b → isAsciiSpaceByte b = false := by
  intro b hb
  simp only [trimSpaceBytes, List.head?_reverse] at hb
  have hBne : (name.dropWhile isAsciiSpaceByte).reverse.dropWhile isAsciiSpaceByte ≠ [] := by
    intro h; rw [h] at hb; simp at hb
  have h1 : ((name.dropWhile isAsciiSpaceByte).reverse).getLast? = some b := by
    rw [getLast?_of_suffix (List.dropWhile_suffix isAsciiSpaceByte) hBne]
    exact hb
  rw [List.getLast?_reverse] at h1
  exact head?_dropWhile_false _ _ b h1

/-- The trimmed list ends with a non-space byte. -/
theorem trimSpaceBytes_getLast (name : List Nat) :
    ∀ b, (trimSpaceBytes name).getLast? = some b → isAsciiSpaceByte b = false := by
  intro b hb
  simp only [trimSpaceBytes, List.getLast?_reverse] at hb
  exact head?_dropWhile_false _ _ b hb

/-- Taking a positive-length cap keeps the head. -/
theorem head?_take200 {α : Type} (l : List α) : (l.take 200).head? = l.head? := by
  cases l <;> rfl

/-- C6. Sanitization: for every input, `sanitizeFilename` leaves no byte of
the illegal class `<>:"/\|?*` + control, the result is at most 200 bytes,
replacement is positional (each illegal byte becomes `_`), and the
surrounding ASCII whitespace has been trimmed: the result never starts with
whitespace, and whenever the cap does not cut the trimmed name, it does not
end with whitespace either. -/
theorem sanitize_filename_ok (name : List Nat) :
    (∀ b ∈ sanitizeFilename name, isIllegalByte b = false) ∧
    (sanitizeFilename name).length ≤ 200 ∧
    (∀ (i b : Nat), name[i]? = some b →
      (replaceIllegal name)[i]? = some (if isIllegalByte b then 95 else b)) ∧
    (∀ b, (sanitizeFilename name).head? = some b → isAsciiSpaceByte b = false) ∧
    ((trimSpaceBytes (replaceIllegal name)).length ≤ 200 →
      ∀ b, (sanitizeFilename name).getLast? = some b →
        isAsciiSpaceByte b = false) := by
  refine ⟨?_, ?_, replaceIllegal_at name, ?_, ?_⟩
  · intro b hb
    simp only [sanitizeFilename] at hb
    by_cases hlen : (trimSpaceBytes (replaceIllegal name)).length > 200
    · rw [if_pos hlen] at hb
      exact replaceIllegal_clean name b
        (trimSpaceBytes_mem _ b (List.mem_of_mem_take hb))
    · rw [if_neg hlen] at hb
      exact replaceIllegal_clean name b (trimSpaceBytes_mem _ b hb)
  · simp only [sanitizeFilename]
    by_cases hlen : (trimSpaceBytes (replaceIllegal name)).length > 200
    · rw [if_pos hlen]
      simp
    · rw [if_neg hlen]
      omega
  · intro b hb
    simp only [sanitizeFilename] at hb
    by_cases hlen : (trimSpaceBytes (replaceIllegal name)).length > 200
    · rw [if_pos hlen, head?_take200] at hb
      exact trimSpaceBytes_head _ b hb
    · rw [if_neg hlen] at hb
      exact trimSpaceBytes_head _ b hb
  · intro hlen b hb
    simp only [sanitizeFilename] at hb
    rw [if_neg (by omega)] at hb
    exact trimSpaceBytes_getLast _ b hb

/-- Witness for C6 on a title with several illegal characters: the sanitized
result is short and the theorem's cap applies to it. -/
theorem sanitize_filename_ok_witness :
    (sanitizeFilename (strBytes "Song: Live/Remix?")).length ≤ 200 :=
  (sanitize_filename_ok (strBytes "Song: Live/Remix?")).2.1

/-- `addTag` appends exactly the entries of `entryFor` (with the key
uppercased) and touches nothing else. -/
theorem addTag_comments (c : VorbisComment) (k v : List Nat) :
    (addTag c k v).Comments = c.Comments ++ entryFor (k.map asciiUpper) v := by
  unfold addTag VorbisComment.Add entryFor
  by_cases hv : v = [] <;> simp [hv]

/-- `addTag` never changes the vendor. -/
theorem addTag_vendor (c : VorbisComment) (k v : List Nat) :
    (addTag c k v).Vendor = c.Vendor := by
  unfold addTag VorbisComment.Add
  by_cases hv : v = [] <;> simp [hv]

/-- The tag keys of `WriteFlacTags` are already uppercase. -/
theorem upperKeyTITLE : (strBytes "TITLE").map asciiUpper = strBytes "TITLE" := by
  decide

theorem upperKeyVERSION :
    (strBytes "VERSION").map asciiUpper = strBytes "VERSION" := by decide

theorem upperKeyARTIST :
    (strBytes "ARTIST").map asciiUpper = strBytes "ARTIST" := by decide

theorem upperKeyALBUM :
    (strBytes "ALBUM").map asciiUpper = strBytes "ALBUM" := by decide

theorem upperKeyALBUMARTIST :
    (strBytes "ALBUMARTIST").map asciiUpper = strBytes "ALBUMARTIST" := by decide

theorem upperKeyTRACKNUMBER :
    (strBytes "TRACKNUMBER").map asciiUpper = strBytes "TRACKNUMBER" := by decide

theorem upperKeyDISCNUMBER :
    (strBytes "DISCNUMBER").map asciiUpper = strBytes "DISCNUMBER" := by decide

theorem upperKeyGENRE :
    (strBytes "GENRE").map asciiUpper = strBytes "GENRE" := by decide

theorem upperKeyDATE :
    (strBytes "DATE").map asciiUpper = strBytes "DATE" := by decide

/-- The tag-setting block appends exactly `tagEntries`, in order, after the
existing entries. -/
theorem setTags_comments (cmts : VorbisComment) (track : TrackMetadata)
    (album : AlbumMetadata) :
    (setTags cmts track album).Comments = cmts.Comments ++ tagEntries track album := by
  obtain ⟨aT, aA, aG, aO, aS⟩ := album
  unfold setTags tagEntries
  cases aG <;> by_cases hO : aO = [] <;> by_cases hS : aS = [] <;>
    simp [addTag_comments, upperKeyTITLE, upperKeyVERSION, upperKeyARTIST,
      upperKeyALBUM, upperKeyALBUMARTIST, upperKeyTRACKNUMBER,
      upperKeyDISCNUMBER, upperKeyGENRE, upperKeyDATE, hO, hS, entryFor,
      List.append_assoc]

/-- `setTags` never changes the vendor. -/
theorem setTags_vendor (cmts : VorbisComment) (track : TrackMetadata)
    (album : AlbumMetadata) :
    (setTags cmts track album).Vendor = cmts.Vendor := by
  obtain ⟨aT, aA, aG, aO, aS⟩ := album
  unfold setTags
  cases aG <;> by_cases hO : aO = [] <;> by_cases hS : aS = [] <;>
    simp [addTag_vendor, hO, hS]

/-- `fmt.Sprintf("%d", n)` is never the empty string. -/
theorem decimalBytes_ne_nil (n : Nat) : decimalBytes n ≠ [] := by
  unfold decimalBytes
  by_cases h : n = 0
  · simp [h]
  · rw [if_neg h]
    cases n with
    | zero => exact absurd rfl h
    | succ m =>
      rw [digitsRev, digitsRevGo]
      simp

/-- Every entry of `entryFor` is a `KEY=VALUE` pair with a non-empty value. -/
theorem entryFor_shape (k v e : List Nat) (h : e ∈ entryFor k v) :
    v ≠ [] ∧ e = k ++ [61] ++ v := by
  unfold entryFor at h
  by_cases hv : v = []
  · simp [hv] at h
  · rw [if_neg hv] at h
    simp only [List.mem_singleton] at h
    exact ⟨hv, h⟩

/-- Every entry the tag-setting block appends is a `KEY=VALUE` pair with a
non-empty value: no empty-valued entry is ever written. -/
theorem tagEntries_shape (track : TrackMetadata) (album : AlbumMetadata)
    (e : List Nat) (h : e ∈ tagEntries track album) :
    ∃ key value, value ≠ [] ∧ e = key ++ [61] ++ value := by
  have lift : ∀ (k v : List Nat), e ∈ entryFor k v →
      ∃ key value, value ≠ [] ∧ e = key ++ [61] ++ value :=
    fun k v hm => ⟨k, v, entryFor_shape k v e hm⟩
  obtain ⟨aT, aA, aG, aO, aS⟩ := album
  unfold tagEntries at h
  simp only [List.mem_append] at h
  rcases h with ((((((((h | h) | h) | h) | h) | h) | h) | h) | h)
  · exact lift _ _ h
  · exact lift _ _ h
  · exact lift _ _ h
  · exact lift _ _ h
  · exact lift _ _ h
  · exact lift _ _ h
  · exact lift _ _ h
  · cases aG with
    | none => simp at h
    | some g => exact lift _ _ h
  · by_cases hO : aO = []
    · rw [if_neg (not_not_intro hO)] at h
      exact lift _ _ h
    · rw [if_pos hO] at h
      exact lift _ _ h

/-- C7. Tag-field postcondition: adding an empty value is a no-op; a
non-empty value appends exactly one `KEY=VALUE` entry at the end, preserving
existing order (so duplicate keys survive); the tag-setting block appends
exactly `tagEntries` — TITLE, VERSION, ARTIST, ALBUM, ALBUMARTIST,
TRACKNUMBER, DISCNUMBER when non-empty, GENRE only when the album carries a
genre, DATE from the original release date and otherwise from the streaming
date; track/disc numbers are never empty; and no appended entry ever has an
empty value. -/
theorem tag_fields_postcondition :
    (∀ (vc : VorbisComment) (key : List Nat), vc.Add key [] = vc) ∧
    (∀ (vc : VorbisComment) (key value : List Nat), value ≠ [] →
      vc.Add key value =
        { vc with Comments := vc.Comments ++ [key ++ [61] ++ value] }) ∧
    (∀ (cmts : VorbisComment) (track : TrackMetadata) (album : AlbumMetadata),
      (setTags cmts track album).Comments =
        cmts.Comments ++ tagEntries track album) ∧
    (∀ n : Nat, decimalBytes n ≠ []) ∧
    (∀ (track : TrackMetadata) (album : AlbumMetadata) (e : List Nat),
      e ∈ tagEntries track album →
        ∃ key value, value ≠ [] ∧ e = key ++ [61] ++ value) := by
  refine ⟨?_, ?_, setTags_comments, decimalBytes_ne_nil, tagEntries_shape⟩
  · intro vc key
    simp [VorbisComment.Add]
  · intro vc key value hv
    simp [VorbisComment.Add, hv]

/-- Witness for C7: adding a concrete non-empty tag appends exactly one
entry at the end. -/
theorem tag_fields_postcondition_witness :
    VorbisComment.Add { Vendor := [], Comments := [] } (strBytes "A") (strBytes "1") =
      { Vendor := [], Comments := [strBytes "A" ++ [61] ++ strBytes "1"] } := by
  have h := tag_fields_postcondition.2.1 { Vendor := [], Comments := [] }
    (strBytes "A") (strBytes "1") (by decide)
  simpa using h

/-- C2. Block-chain splice: when the chain holds a Vorbis-comment block (at
the first index `i` found) whose payload parses, `WriteFlacTags` rewrites
exactly that block's payload in place — same index, same type, every other
block's position, type and payload untouched, chain length preserved — and
when no such block exists, one fresh block (built from `NewVorbisComment`,
whose vendor is the fixed default) is appended at the end; in both cases,
non-empty cover bytes always append exactly one new picture block at the very
end, and empty cover bytes append nothing — no existing picture block is ever
searched for or replaced. -/
theorem write_flac_tags_splice (meta : List MetaDataBlock)
    (track : TrackMetadata) (album : AlbumMetadata) (coverData : List Nat) :
    (∀ (i : Nat) (b : MetaDataBlock) (cmts : VorbisComment),
      List.findIdx? (fun x => x.BlockType == vorbisCommentBlockType) meta = some i →
      meta[i]? = some b →
      ParseVorbisComment b.Data = some cmts →
      writeFlacMeta meta track album coverData =
        some (meta.set i { b with Data := (setTags cmts track album).Marshal }
          ++ picPart coverData) ∧
      b.BlockType = vorbisCommentBlockType ∧
      (∀ j : Nat, j ≠ i →
        (meta.set i { b with Data := (setTags cmts track album).Marshal })[j]? =
          meta[j]?) ∧
      (meta.set i { b with Data := (setTags cmts track album).Marshal }).length =
        meta.length) ∧
    (List.findIdx? (fun x => x.BlockType == vorbisCommentBlockType) meta = none →
      writeFlacMeta meta track album coverData =
        some (meta
          ++ [MetaDataBlock.mk vorbisCommentBlockType
                (setTags NewVorbisComment track album).Marshal]
          ++ picPart coverData)) ∧
    (∀ c : VorbisComment, (setTags c track album).Vendor = c.Vendor) ∧
    NewVorbisComment.Vendor = defaultVendor ∧
    (coverData ≠ [] →
      picPart coverData =
        [{ BlockType := pictureBlockType,
           Data := (coverPicture coverData).Marshal }]) ∧
    (coverData = [] → picPart coverData = []) := by
  refine ⟨?_, ?_, fun c => setTags_vendor c track album, rfl, ?_, ?_⟩
  · intro i b cmts h1 h2 h3
    refine ⟨?_, ?_, ?_, by simp⟩
    · unfold writeFlacMeta
      rw [h1]
      simp only [h2, h3]
    · have hfound := List.findIdx?_of_eq_some h1
      rw [h2] at hfound
      simp only [beq_iff_eq] at hfound
      exact hfound
    · intro j hj
      exact List.getElem?_set_ne (fun h => hj h.symm)
  · intro h1
    unfold writeFlacMeta
    rw [h1]
  · intro h
    simp [picPart, h]
  · intro h
    simp [picPart, h]

/-- Witness for C2: a two-block chain with a leading padding block and a
minimal comment block; tagging replaces the comment block in place and
appends one picture block for the one-byte cover. -/
theorem write_flac_tags_splice_witness :
    writeFlacMeta [MetaDataBlock.mk 0 [], MetaDataBlock.mk 4 [0, 0, 0, 0, 0, 0, 0, 0]]
        (TrackMetadata.mk [] [] [] 1 1) (AlbumMetadata.mk [] [] none [] []) [7] =
      some (List.set [MetaDataBlock.mk 0 [], MetaDataBlock.mk 4 [0, 0, 0, 0, 0, 0, 0, 0]] 1
          { MetaDataBlock.mk 4 [0, 0, 0, 0, 0, 0, 0, 0] with
              Data := (setTags (VorbisComment.mk [] []) (TrackMetadata.mk [] [] [] 1 1)
                (AlbumMetadata.mk [] [] none [] [])).Marshal }
        ++ picPart [7]) :=
  ((write_flac_tags_splice
      [MetaDataBlock.mk 0 [], MetaDataBlock.mk 4 [0, 0, 0, 0, 0, 0, 0, 0]]
      (TrackMetadata.mk [] [] [] 1 1) (AlbumMetadata.mk [] [] none [] []) [7]).1
    1 (MetaDataBlock.mk 4 [0, 0, 0, 0, 0, 0, 0, 0]) (VorbisComment.mk [] [])
    (by decide) (by decide) (by decide)).1

/-- C3. Per-track state machine: for every task outcome, the status sequence
the worker writes forms a chain of allowed transitions
(Queued → Downloading → {Complete | Failed}), starts at Queued, ends in a
terminal status, contains exactly one terminal status, never moves directly
from Queued to Failed, and no allowed transition leaves a terminal status. -/
theorem track_state_machine (o : TaskOutcome) :
    List.Chain' (fun s t => allowedStep s t = true) (runWorkerTask o).statusTrace ∧
    (runWorkerTask o).statusTrace.head? = some .StatusQueued ∧
    (runWorkerTask o).statusTrace.getLast?.map isTerminal = some true ∧
    (runWorkerTask o).statusTrace.countP (fun s => isTerminal s) = 1 ∧
    (∀ s t : TrackStatus, allowedStep s t = true → isTerminal s = false) ∧
    allowedStep .StatusQueued .StatusFailed = false := by
  have hterm : ∀ s t : TrackStatus, allowedStep s t = true → isTerminal s = false := by
    intro s t h
    cases s <;> cases t <;> simp_all [allowedStep, isTerminal]
  obtain ⟨u, d, g⟩ := o
  cases u <;> cases d <;> cases g <;>
    exact ⟨by simp [runWorkerTask, List.chain'_cons, allowedStep],
      by decide, by decide, by decide, hterm, by decide⟩

/-- Witness for C3 at the all-success outcome: the trace starts Queued. -/
theorem track_state_machine_witness :
    (runWorkerTask { urlOk := true, dlOk := true, tagOk := true }).statusTrace.head? =
      some .StatusQueued :=
  (track_state_machine { urlOk := true, dlOk := true, tagOk := true }).2.1

/-- C4 counterexample: in the album worker, a task whose download succeeded
but whose tagging failed still ends Complete — but no warning is emitted
(the worker discards the tagger's error with `_ =`), refuting the claim that
a warning accompanies every tagging failure. -/
theorem worker_tag_failure_no_warning :
    (runWorkerTask { urlOk := true, dlOk := true, tagOk := false }).warned = false ∧
    (runWorkerTask { urlOk := true, dlOk := true, tagOk := false }).statusTrace.getLast? =
      some .StatusComplete := by
  decide

/-- C4 (amended). Tagging failure is non-fatal: once the audio transfer
succeeded, whatever the tagging outcome, the album worker marks the track
Complete and never Failed (the tag error is silently discarded, with no
warning), and `DownloadTrack` likewise returns success, printing its warning
exactly when tagging failed. -/
theorem tagging_failure_nonfatal (o : TaskOutcome) (hu : o.urlOk = true)
    (hd : o.dlOk = true) :
    (runWorkerTask o).statusTrace.getLast? = some .StatusComplete ∧
    TrackStatus.StatusFailed ∉ (runWorkerTask o).statusTrace ∧
    (runWorkerTask o).warned = false ∧
    downloadTrackRun true true true false = .okWith true ∧
    downloadTrackRun true true true true = .okWith false := by
  obtain ⟨u, d, g⟩ := o
  simp only at hu hd
  subst hu
  subst hd
  cases g <;> decide

/-- Witness for C4 at a concrete failing-tag outcome. -/
theorem tagging_failure_nonfatal_witness :
    (runWorkerTask { urlOk := true, dlOk := true, tagOk := false }).statusTrace.getLast? =
      some .StatusComplete :=
  (tagging_failure_nonfatal { urlOk := true, dlOk := true, tagOk := false }
    rfl rfl).1

/-- The task-build loop keeps exactly the tracks whose destination does not
exist, in order, and counts the others as skipped. -/
theorem buildTasks_spec (q : Nat) (dir : List Nat) (ex : List Nat → Bool)
    (ts : List TrackMetadata) :
    ∀ i : Nat,
      (buildTasks q dir ex ts i).1.map trackTask.Track =
        ts.filter (fun t => !ex (plannedPath q dir t)) ∧
      (buildTasks q dir ex ts i).2 =
        ts.countP (fun t => ex (plannedPath q dir t)) := by
  induction ts with
  | nil => intro i; simp [buildTasks]
  | cons t ts ih =>
    intro i
    obtain ⟨hmap, hcnt⟩ := ih (i + 1)
    unfold buildTasks
    cases hb : buildTasks q dir ex ts (i + 1) with
    | mk rest sk =>
      rw [hb] at hmap hcnt
      simp only at hmap hcnt
      simp only [plannedPath] at hmap hcnt ⊢
      by_cases h : ex (joinPath dir (albumTrackFileName q t)) <;>
        simp [hb, h, hmap, hcnt, List.filter_cons, List.countP_cons]

/-- Every built task carries a filename and path computed by the planner. -/
theorem buildTasks_mem (q : Nat) (dir : List Nat) (ex : List Nat → Bool)
    (ts : List TrackMetadata) :
    ∀ (i : Nat) (task : trackTask), task ∈ (buildTasks q dir ex ts i).1 →
      ∃ t, task.FileName = albumTrackFileName q t ∧
        task.TrackPath = joinPath dir (albumTrackFileName q t) := by
  induction ts with
  | nil => intro i task h; simp [buildTasks] at h
  | cons t ts ih =>
    intro i task h
    unfold buildTasks at h
    cases hb : buildTasks q dir ex ts (i + 1) with
    | mk rest sk =>
      rw [hb] at h
      simp only at h
      by_cases hex : ex (joinPath dir (albumTrackFileName q t))
      · rw [if_pos hex] at h
        exact ih (i + 1) task (by rw [hb]; exact h)
      · rw [if_neg hex] at h
        simp only [List.mem_cons] at h
        rcases h with rfl | h
        · exact ⟨t, rfl, rfl⟩
        · exact ih (i + 1) task (by rw [hb]; exact h)

/-- C5. Planning with exists-skip: the planner walks the tracks in album
order; the tasks are exactly the tracks whose computed destination does not
exist, in the original order; the skipped count is the number of existing
destinations; an empty task list makes `DownloadAlbum` return success
immediately with no track transfer; hence when every destination exists
(a second run over the same directory) zero transfers happen. -/
theorem album_plan_exists_skip (quality : Nat) (albumDir : List Nat)
    (tracks : List TrackMetadata) (existsAt : List Nat → Bool) :
    ((planTasks quality albumDir tracks existsAt).1.map trackTask.Track =
      tracks.filter (fun t => !existsAt (plannedPath quality albumDir t))) ∧
    ((planTasks quality albumDir tracks existsAt).2 =
      tracks.countP (fun t => existsAt (plannedPath quality albumDir t))) ∧
    ((planTasks quality albumDir tracks existsAt).1 = [] →
      downloadAlbumOutcome quality albumDir tracks existsAt =
        .earlySuccess (planTasks quality albumDir tracks existsAt).2 ∧
      maxTransfersOf (downloadAlbumOutcome quality albumDir tracks existsAt) = 0) ∧
    ((∀ t ∈ tracks, existsAt (plannedPath quality albumDir t) = true) →
      maxTransfersOf (downloadAlbumOutcome quality albumDir tracks existsAt) = 0) := by
  obtain ⟨hmap, hcnt⟩ := buildTasks_spec quality albumDir existsAt tracks 0
  refine ⟨hmap, hcnt, ?_, ?_⟩
  · intro hempty
    unfold downloadAlbumOutcome
    cases hp : planTasks quality albumDir tracks existsAt with
    | mk tasks sk =>
      rw [hp] at hempty
      simp only at hempty
      subst hempty
      exact ⟨by simp [hp], by simp [hp, maxTransfersOf]⟩
  · intro hall
    have hfilter : tracks.filter
        (fun t => !existsAt (plannedPath quality albumDir t)) = [] := by
      rw [List.filter_eq_nil_iff]
      intro t ht
      simp [hall t ht]
    have hempty : (planTasks quality albumDir tracks existsAt).1 = [] := by
      have := hmap
      rw [hfilter] at this
      exact List.map_eq_nil_iff.mp this
    unfold downloadAlbumOutcome
    cases hp : planTasks quality albumDir tracks existsAt with
    | mk tasks sk =>
      rw [hp] at hempty
      simp only at hempty
      subst hempty
      simp [maxTransfersOf]

/-- Witness for C5: one track whose destination exists — zero transfers. -/
theorem album_plan_exists_skip_witness :
    maxTransfersOf (downloadAlbumOutcome 6 (strBytes "d")
      [TrackMetadata.mk (strBytes "T") [] [] 1 1] (fun _ => true)) = 0 :=
  (album_plan_exists_skip 6 (strBytes "d")
    [TrackMetadata.mk (strBytes "T") [] [] 1 1] (fun _ => true)).2.2.2
    (fun t _ => rfl)

/-- Reported percentages never exceed 100. -/
theorem reportPercent_le (d t : Nat) : reportPercent d t ≤ 100 :=
  min_le_right _ _

/-- Reported percentages are monotone in the downloaded byte count. -/
theorem reportPercent_mono (t : Nat) {d d' : Nat} (h : d ≤ d') :
    reportPercent d t ≤ reportPercent d' t := by
  unfold reportPercent
  exact min_le_min (Nat.div_le_div_right (by omega)) le_rfl

/-- Extracting percentages from a run of progress events recovers them. -/
theorem filterMap_progress (f : Nat → Nat) (bcs : List Nat) :
    List.filterMap
      (fun e =>
        match e with
        | TrackEvent.progressUpdate p => some p
        | _ => none)
      (bcs.map (fun d => TrackEvent.progressUpdate (f d))) = bcs.map f := by
  induction bcs with
  | nil => rfl
  | cons b bs ih =>
    simp only [List.map_cons, List.filterMap_cons]
    rw [ih]

/-- The percentages a track trace delivers are exactly the per-callback
percentages, in callback order. -/
theorem progressValues_trackRunTrace (total : Nat) (bcs : List Nat) (ok : Bool)
    (h : 0 < total) :
    progressValues (trackRunTrace total bcs ok) =
      bcs.map (fun d => reportPercent d total) := by
  unfold progressValues trackRunTrace downloadEvents
  rw [if_pos h]
  rw [List.filterMap_append, List.filterMap_append,
    filterMap_progress (fun d => reportPercent d total) bcs]
  simp

/-- C9. Progress monotonicity: with a known positive total and a
non-decreasing downloaded-byte sequence, the percentages delivered while the
track is Downloading are non-decreasing and bounded by 100; the one terminal
status assignment is the last event of the trace, so no progress update
occurs after Complete or Failed. -/
theorem progress_monotonic (total : Nat) (byteCounts : List Nat) (ok : Bool)
    (htot : 0 < total) (hmono : List.Chain' (· ≤ ·) byteCounts) :
    List.Chain' (· ≤ ·) (progressValues (trackRunTrace total byteCounts ok)) ∧
    (∀ p ∈ progressValues (trackRunTrace total byteCounts ok), p ≤ 100) ∧
    (trackRunTrace total byteCounts ok).getLast? =
      some (.terminalStatus (if ok then .StatusComplete else .StatusFailed)) ∧
    (∀ e ∈ (trackRunTrace total byteCounts ok).dropLast,
      isTerminalEvent e = false) := by
  refine ⟨?_, ?_, ?_, ?_⟩
  · rw [progressValues_trackRunTrace total byteCounts ok htot, List.chain'_map]
    exact hmono.imp (fun a b hab => reportPercent_mono total hab)
  · intro p hp
    rw [progressValues_trackRunTrace total byteCounts ok htot] at hp
    simp only [List.mem_map] at hp
    obtain ⟨d, _, rfl⟩ := hp
    exact reportPercent_le d total
  · exact List.getLast?_concat _
  · intro e he
    unfold trackRunTrace at he
    rw [List.dropLast_concat] at he
    simp only [List.mem_append, List.mem_singleton] at he
    rcases he with rfl | he
    · rfl
    · unfold downloadEvents at he
      rw [if_pos htot] at he
      simp only [List.mem_map] at he
      obtain ⟨d, _, rfl⟩ := he
      rfl

/-- Witness for C9 on a concrete monotone byte sequence. -/
theorem progress_monotonic_witness :
    List.Chain' (· ≤ ·) (progressValues (trackRunTrace 4 [0, 2, 4] true)) :=
  (progress_monotonic 4 [0, 2, 4] true (by decide)
    (by simp [List.chain'_cons])).1

/-- Lowercasing fixes the already-lowercase `.flac` suffix bytes. -/
theorem map_asciiLower_flac :
    (strBytes ".flac").map asciiLower = strBytes ".flac" := by decide

/-- Lowercasing a path keeps its `.flac` suffix. -/
theorem lower_keeps_flac (p : List Nat) (h : strBytes ".flac" <:+ p) :
    strBytes ".flac" <:+ p.map asciiLower := by
  obtain ⟨t, rfl⟩ := h
  rw [List.map_append, map_asciiLower_flac]
  exact List.suffix_append _ _

/-- A list ending in `.flac` (last byte `c`) cannot also end in `.mp3`
(last byte `3`). -/
theorem not_mp3_of_flac (l : List Nat) (h : strBytes ".flac" <:+ l) :
    (strBytes ".mp3").isSuffixOf l = false := by
  rw [← Bool.not_eq_true, List.isSuffixOf_iff_suffix]
  intro hm
  have h99 : l.getLast? = some 99 := by
    rw [getLast?_of_suffix h (by decide)]; decide
  have h51 : l.getLast? = some 51 := by
    rw [getLast?_of_suffix hm (by decide)]; decide
  rw [h99] at h51
  exact absurd h51 (by decide)

/-- Any path whose lowercased form does not end `.mp3` takes the FLAC
route. -/
theorem writeTagsFormat_of_not_mp3 (path : List Nat)
    (h : (strBytes ".mp3").isSuffixOf (path.map asciiLower) = false) :
    writeTagsFormat path = .flacTags := by
  unfold writeTagsFormat
  simp only [h, Bool.false_eq_true, if_false]
  split <;> rfl

/-- C10. Destination extension is always `.flac`: for every quality ID
(including lossy 5), the album-task filename, every planned task's filename
and path, and the single-track filename all end in `.flac`; and since
`WriteTags` routes every path not ending `.mp3` (after lowercasing) through
the FLAC path, all these destinations are tagged via the FLAC container
path. -/
theorem dest_extension_flac (quality : Nat) (track : TrackMetadata)
    (performerName title albumDir : List Nat) (tracks : List TrackMetadata)
    (existsAt : List Nat → Bool) :
    strBytes ".flac" <:+ albumTrackFileName quality track ∧
    strBytes ".flac" <:+ downloadTrackFileName quality performerName title ∧
    (∀ path : List Nat,
      (strBytes ".mp3").isSuffixOf (path.map asciiLower) = false →
      writeTagsFormat path = .flacTags) ∧
    writeTagsFormat (albumTrackFileName quality track) = .flacTags ∧
    writeTagsFormat (downloadTrackFileName quality performerName title) =
      .flacTags ∧
    (∀ task ∈ (planTasks quality albumDir tracks existsAt).1,
      strBytes ".flac" <:+ task.FileName ∧
      strBytes ".flac" <:+ task.TrackPath ∧
      writeTagsFormat task.TrackPath = .flacTags) := by
  have hname : ∀ t : TrackMetadata,
      strBytes ".flac" <:+ albumTrackFileName quality t :=
    fun t => List.suffix_append _ _
  have hroute : ∀ p : List Nat, strBytes ".flac" <:+ p →
      writeTagsFormat p = .flacTags := fun p hp =>
    writeTagsFormat_of_not_mp3 p (not_mp3_of_flac _ (lower_keeps_flac p hp))
  refine ⟨hname track, List.suffix_append _ _, writeTagsFormat_of_not_mp3,
    hroute _ (hname track), hroute _ (List.suffix_append _ _), ?_⟩
  intro task htask
  obtain ⟨t, hfn, hpath⟩ :=
    buildTasks_mem quality albumDir existsAt tracks 0 task htask
  have hsufpath : strBytes ".flac" <:+ task.TrackPath := by
    rw [hpath]
    exact (hname t).trans (List.suffix_append _ _)
  exact ⟨by rw [hfn]; exact hname t, hsufpath, hroute _ hsufpath⟩

/-- Witness for C10: a fully concrete planned task keeps the FLAC route. -/
theorem dest_extension_flac_witness :
    writeTagsFormat (downloadTrackFileName 5 (strBytes "A") (strBytes "B")) =
      TagFormat.flacTags :=
  (dest_extension_flac 5 (TrackMetadata.mk [] [] [] 1 1) (strBytes "A")
    (strBytes "B") [] [] (fun _ => false)).2.2.2.2.1

end QobuzDL
